import Mathlib

/-!
Verification development for the react-form-guard validation core.

The definitions below are a shallow embedding of the repository's source:
  * `src/lib/validators.ts`  (VALIDATORS, DEFAULT_MESSAGES, validateField, validateForm)
  * `src/lib/debounceThrottle.ts`  (debounce, throttle)
  * `src/hooks/useFormValidator.ts`  (useFormValidator, useFormSubmission)

JavaScript runtime values are modelled by `JSVal`; JS objects used as string-keyed
records are modelled by insertion-ordered association lists (`Rec`).  Asynchronous
functions that can reject are modelled in the `Except String` monad: `Except.error m`
stands for a rejected promise (or a thrown exception) carrying message `m`, and
awaiting in place corresponds to monadic sequencing, which is faithful because the
runtime is single-threaded and each `await` resumes with the settled value.
Host-platform primitives that the source delegates to (RegExp compilation and
matching, WHATWG URL parsing, `Number` coercion) are parameters of the embedding,
collected in `JSEnv`; every theorem quantifies over them unless the code path
avoids them entirely.
-/

namespace FormGuard

/-- A JavaScript runtime value, as far as the validation core inspects one.
Arrays and objects are compared by reference in JS (`===`) and the core only ever
reads an array's `length`; they are therefore modelled by an identity tag plus,
for arrays, their length. -/
inductive JSVal where
  | undefined : JSVal
  | null : JSVal
  | str (s : String) : JSVal
  | num (n : Int) : JSVal
  | bool (b : Bool) : JSVal
  | arr (id : Nat) (length : Nat) : JSVal
  | obj (id : Nat) : JSVal
deriving DecidableEq, Repr

/-- JS strict equality `===` on the modelled values: same constructor and payload;
for `arr`/`obj` the identity tag models reference equality. -/
def jsStrictEq (a b : JSVal) : Bool :=
  decide (a = b)

/-- JS insertion-ordered string-keyed record (a plain object used as a map). -/
abbrev Rec (α : Type) : Type := List (String × α)

namespace Rec

/-- Property read `r[k]`: the value at the first (unique) matching key. -/
def get {α : Type} : Rec α → String → Option α
  | [], _ => none
  | p :: ps, k => if p.1 = k then some p.2 else Rec.get ps k

/-- Property write `{...r, [k]: v}` / `r[k] = v`: update an existing key in place,
otherwise append (JS objects keep insertion order). -/
def set {α : Type} : Rec α → String → α → Rec α
  | [], k, v => [(k, v)]
  | p :: ps, k, v => if p.1 = k then (k, v) :: ps else p :: Rec.set ps k v

/-- `Object.keys r`. -/
def keys {α : Type} (r : Rec α) : List String :=
  r.map Prod.fst

/-- Object spread `{...r, ...r2}`. -/
def merge {α : Type} (r r2 : Rec α) : Rec α :=
  r2.foldl (fun acc p => Rec.set acc p.1 p.2) r

end Rec

/-! ### String helpers (JS semantics) -/

/-- JS whitespace (`\s` / `String.prototype.trim`), restricted to the ASCII
whitespace characters that can occur in this development. -/
def isJsWs (c : Char) : Bool :=
  c = ' ' || c = '\t' || c = '\n' || c = '\r' || c = '\x0b' || c = '\x0c'

/-- `String.prototype.trim`. -/
def jsTrim (s : String) : String :=
  ⟨((s.data.dropWhile isJsWs).reverse.dropWhile isJsWs).reverse⟩

/-- First occurrence of `pat` inside a character list: returns the part before
the match and the part after it. -/
def subSplit (pat : List Char) : List Char → Option (List Char × List Char)
  | [] => if pat.isEmpty then some ([], []) else none
  | c :: cs =>
    if pat.isPrefixOf (c :: cs) then some ([], (c :: cs).drop pat.length)
    else
      match subSplit pat cs with
      | some (p, s) => some (c :: p, s)
      | none => none

/-- `String.prototype.replace` with a string pattern: replaces the first
occurrence only. -/
def replaceFirst (s pat rep : String) : String :=
  match subSplit pat.data s.data with
  | some (p, suf) => ⟨p ++ rep.data ++ suf⟩
  | none => s

/-! ### Rule model (src/lib/types.ts) -/

/-- A kind-specific rule parameter (`ValidationRule.value : string | number | boolean
| RegExp`).  A `RegExp` is modelled by its source text plus its (host-supplied)
matching function. -/
inductive RuleValue where
  | str (s : String) : RuleValue
  | num (n : Int) : RuleValue
  | bool (b : Bool) : RuleValue
  | regex (src : String) (test : String → Bool) : RuleValue

/-- JS truthiness of a rule parameter (`""`, `0` and `false` are falsy; a RegExp
object is always truthy). -/
def ruleValueTruthy : RuleValue → Bool
  | RuleValue.str s => s ≠ ""
  | RuleValue.num n => n ≠ 0
  | RuleValue.bool b => b
  | RuleValue.regex _ _ => true

/-- `String(x)` rendering of a rule parameter, used for the `\x7bvalue\x7d`
placeholder substitution. -/
def ruleValueToString : RuleValue → String
  | RuleValue.str s => s
  | RuleValue.num n => toString n
  | RuleValue.bool b => if b then "true" else "false"
  | RuleValue.regex src _ => "/" ++ src ++ "/"

/-- `ValidationRule` from src/lib/types.ts.  `custom` is the externally supplied
predicate `(value, formData?) => boolean | Promise<boolean>`; a rejecting or
throwing predicate is `Except.error`.  `minLength`/`maxLength` mirror the
duck-typed properties the minLength/maxLength validators read through a cast. -/
structure Rule where
  type : String
  message : Option String := none
  value : Option RuleValue := none
  matchField : Option String := none
  custom : Option (JSVal → Option (Rec JSVal) → Except String Bool) := none
  minLength : Option Int := none
  maxLength : Option Int := none

/-- A rule as configured by the caller: either a bare kind string or a rule
object (`ValidationRule | ValidatorType`). -/
inductive RuleInput where
  | str (t : String) : RuleInput
  | obj (r : Rule) : RuleInput

/-- Rule normalization from validateField: a bare string becomes `{ type: rule }`. -/
def normalizeRule : RuleInput → Rule
  | RuleInput.str t => { type := t }
  | RuleInput.obj r => r

/-- Host-platform primitives the validators delegate to: `new RegExp(p).test s`,
`new URL(s)` success, and `!isNaN(Number(v))`.  The embedding is parametric in
them; no claim in this development depends on their concrete behaviour. -/
structure JSEnv where
  regexTest : String → String → Bool
  urlParses : String → Bool
  numberFinite : JSVal → Bool

/-! ### Built-in validators (VALIDATORS in src/lib/validators.ts) -/

/-- VALIDATORS.required. -/
def vRequired (value : JSVal) : Bool :=
  match value with
  | JSVal.str s => (jsTrim s).length > 0
  | JSVal.arr _ len => len > 0
  | v => ¬(v = JSVal.null) ∧ ¬(v = JSVal.undefined) ∧ ¬(jsStrictEq v (JSVal.str "") = true)

/-- The language of the email regex `[^\s@]+@[^\s@]+\.[^\s@]+` anchored at both
ends: a nonempty local part, one `@`, then a domain part that is nonempty,
contains no whitespace or `@`, and has a `.` that is neither its first nor its
last character. -/
def emailShape (s : String) : Bool :=
  match subSplit ['@'] s.data with
  | none => false
  | some (a, r) =>
    (!a.isEmpty) && a.all (fun ch => !isJsWs ch && ch ≠ '@') &&
    (!r.isEmpty) && r.all (fun ch => !isJsWs ch && ch ≠ '@') &&
    ((r.drop 1).dropLast.contains '.')

/-- VALIDATORS.email. -/
def vEmail (value : JSVal) : Bool :=
  match value with
  | JSVal.str s => emailShape s
  | _ => false

/-- `Number(s)` for a string, approximated for the integral strings this
development evaluates: trimmed empty string is `0`, an optional sign followed by
digits is that integer, anything else is NaN (`none`). -/
def strToNumber (s : String) : Option Int :=
  let t := (jsTrim s).data
  if t.isEmpty then some 0
  else
    let (sign, digits) :=
      match t with
      | '-' :: rest => ((-1 : Int), rest)
      | '+' :: rest => ((1 : Int), rest)
      | rest => ((1 : Int), rest)
    if digits.isEmpty || !digits.all Char.isDigit then none
    else some (sign * (digits.foldl (fun acc c => acc * 10 + (c.toNat - '0'.toNat)) 0 : Nat))

/-- JS `n >= x` where `n` is a string length and `x` a rule parameter: the
parameter is coerced to a number; a NaN comparison is false. -/
def lenGe (n : Nat) : RuleValue → Bool
  | RuleValue.num m => (n : Int) ≥ m
  | RuleValue.bool b => (n : Int) ≥ (if b then 1 else 0)
  | RuleValue.str s =>
    match strToNumber s with
    | some m => (n : Int) ≥ m
    | none => false
  | RuleValue.regex _ _ => false

/-- JS `n <= x`, as in `lenGe`. -/
def lenLe (n : Nat) : RuleValue → Bool
  | RuleValue.num m => (n : Int) ≤ m
  | RuleValue.bool b => (n : Int) ≤ (if b then 1 else 0)
  | RuleValue.str s =>
    match strToNumber s with
    | some m => (n : Int) ≤ m
    | none => false
  | RuleValue.regex _ _ => false

/-- VALIDATORS.minLength: non-strings fail; the bound is
`rule.value ?? rule.minLength ?? 0`. -/
def vMinLength (value : JSVal) (rule : Rule) : Bool :=
  match value with
  | JSVal.str s =>
    let bound := (rule.value).getD ((rule.minLength.map RuleValue.num).getD (RuleValue.num 0))
    lenGe s.length bound
  | _ => false

/-- VALIDATORS.maxLength: non-strings fail; the bound is
`rule.value ?? rule.maxLength ?? Infinity` (no bound at all is always valid). -/
def vMaxLength (value : JSVal) (rule : Rule) : Bool :=
  match value with
  | JSVal.str s =>
    match (rule.value).orElse (fun _ => rule.maxLength.map RuleValue.num) with
    | none => true
    | some bound => lenLe s.length bound
  | _ => false

/-- VALIDATORS.pattern (and VALIDATORS.match, whose body is identical): fails on
non-strings, passes when the pattern parameter is falsy, otherwise tests the
(possibly string-compiled) regular expression.  A number or `true` parameter
would make `regex.test` a TypeError in JS, modelled by `Except.error`. -/
def vPattern (env : JSEnv) (value : JSVal) (rule : Rule) : Except String Bool :=
  match value with
  | JSVal.str s =>
    match rule.value with
    | none => Except.ok true
    | some rv =>
      if ruleValueTruthy rv then
        match rv with
        | RuleValue.regex _ test => Except.ok (test s)
        | RuleValue.str pat => Except.ok (env.regexTest pat s)
        | _ => Except.error "TypeError: regex.test is not a function"
      else Except.ok true
  | _ => Except.ok false

/-- VALIDATORS.phone: exactly 10 decimal digits. -/
def vPhone (value : JSVal) : Bool :=
  match value with
  | JSVal.str s => s.data.length = 10 && s.data.all Char.isDigit
  | _ => false

/-- The ten configured validator kinds (`type in VALIDATORS`). -/
def isValidType (t : String) : Bool :=
  t = "required" || t = "email" || t = "minLength" || t = "maxLength" ||
  t = "pattern" || t = "match" || t = "custom" || t = "number" || t = "url" || t = "phone"

/-- DEFAULT_MESSAGES. -/
def defaultMessage (t : String) : String :=
  if t = "required" then "This field is required"
  else if t = "email" then "Please enter a valid email address"
  else if t = "minLength" then "This field must be at least {value} characters"
  else if t = "maxLength" then "This field must not exceed {value} characters"
  else if t = "pattern" then "This field format is invalid"
  else if t = "match" then "This field does not match the required pattern"
  else if t = "custom" then "This field is invalid"
  else if t = "number" then "Please enter a valid number"
  else if t = "url" then "Please enter a valid URL"
  else if t = "phone" then "Please enter a valid phone number"
  else ""

/-- `rule.message || default`: JS `||`, so an empty explicit message also falls
back to the default. -/
def messageOr (m : Option String) (d : String) : String :=
  match m with
  | some s => if s = "" then d else s
  | none => d

/-- Dispatch into the VALIDATORS table for a valid type.  Only the `custom`
entry can reject; it is called with a single argument there, so its `formData`
is `undefined` (`none`). -/
def runBuiltin (env : JSEnv) (t : String) (value : JSVal) (rule : Rule) : Except String Bool :=
  if t = "required" then Except.ok (vRequired value)
  else if t = "email" then Except.ok (vEmail value)
  else if t = "minLength" then Except.ok (vMinLength value rule)
  else if t = "maxLength" then Except.ok (vMaxLength value rule)
  else if t = "pattern" then vPattern env value rule
  else if t = "match" then vPattern env value rule
  else if t = "custom" then
    match rule.custom with
    | none => Except.ok true
    | some f => f value none
  else if t = "number" then Except.ok (env.numberFinite value && !(jsStrictEq value (JSVal.str "")))
  else if t = "url" then
    Except.ok (match value with
      | JSVal.str s => env.urlParses s
      | _ => false)
  else if t = "phone" then Except.ok (vPhone value)
  else Except.ok true

/-- Truthiness of `rule.matchField` (an empty string is falsy). -/
def matchFieldTruthy : Option String → Bool
  | some s => s ≠ ""
  | none => false

/-- Placeholder substitution: when `rule.value` is present, the first
`\x7bvalue\x7d` in the message is replaced by the rendered parameter. -/
def substValue (rule : Rule) (msg : String) : String :=
  match rule.value with
  | some rv => replaceFirst msg "{value}" (ruleValueToString rv)
  | none => msg

/-- `validateField` from src/lib/validators.ts: evaluate one value against one
rule with an optional sibling snapshot, resolving to
`\x7b isValid, message \x7d`; `Except.error` is a rejected promise. -/
def validateField (env : JSEnv) (value : JSVal) (ruleIn : RuleInput)
    (formData : Option (Rec JSVal)) : Except String (Bool × String) :=
  let rule := normalizeRule ruleIn
  if rule.type = "custom" && rule.custom.isSome then
    match rule.custom with
    | some f =>
      match f value formData with
      | Except.error e => Except.error e
      | Except.ok b => Except.ok (b, messageOr rule.message (defaultMessage rule.type))
    | none => Except.ok (true, "")
  else if rule.type = "match" && matchFieldTruthy rule.matchField && formData.isSome then
    match rule.matchField, formData with
    | some mf, some fd =>
      Except.ok (jsStrictEq value ((Rec.get fd mf).getD JSVal.undefined),
        messageOr rule.message ("This field must match " ++ mf))
    | _, _ => Except.ok (true, "")
  else if !isValidType rule.type then Except.ok (true, "")
  else
    match runBuiltin env rule.type value rule with
    | Except.error e => Except.error e
    | Except.ok ok =>
      Except.ok (ok, substValue rule (messageOr rule.message (defaultMessage rule.type)))

/-! ### Field configuration and form state (src/lib/types.ts) -/

/-- `FieldConfig`, restricted to the properties the validation core reads
(`name`, `validators`, `defaultValue`); the remaining properties are
presentation-only.  A missing `defaultValue` property is `none`. -/
structure FieldConfig where
  name : String
  validators : Option (List RuleInput) := none
  defaultValue : Option JSVal := none

/-- The field shape `validateForm` receives:
`\x7b name; validators? \x7d`. -/
structure FormField where
  name : String
  validators : Option (List RuleInput) := none

/-- `FormState`. -/
structure FormState where
  values : Rec JSVal
  errors : Rec String
  touched : Rec Bool
  isValidating : Bool
  isValid : Bool
deriving DecidableEq, Repr

/-! ### Single-field validation (validateSingleField in useFormValidator.ts) -/

/-- The rule loop of `validateSingleField`: first failing rule's message wins,
empty string when every rule passes; a rejecting rule rejects the whole
validation (nothing catches here). -/
def validateSingleFieldRules (env : JSEnv) (value : JSVal) (fd : Rec JSVal) :
    List Rule → Except String String
  | [] => Except.ok ""
  | r :: rs =>
    match validateField env value (RuleInput.obj r) (some fd) with
    | Except.error e => Except.error e
    | Except.ok (true, _) => validateSingleFieldRules env value fd rs
    | Except.ok (false, message) => Except.ok message

/-- `validateSingleField(fieldName, value)`: unknown field or missing
`validators` resolve to the empty string; otherwise the rules run in declaration
order against the snapshot `\x7b...formState.values, [fieldName]: value\x7d`. -/
def validateSingleField (env : JSEnv) (fields : List FieldConfig) (formValues : Rec JSVal)
    (fieldName : String) (value : JSVal) : Except String String :=
  match fields.find? (fun f => f.name = fieldName) with
  | none => Except.ok ""
  | some field =>
    match field.validators with
    | none => Except.ok ""
    | some vs =>
      validateSingleFieldRules env value (Rec.set formValues fieldName value)
        (vs.map normalizeRule)

/-- Instrumented copy of the rule loop that additionally counts how many rules
were evaluated (how many `validateField` calls the loop performed). -/
def validateSingleFieldRulesCount (env : JSEnv) (value : JSVal) (fd : Rec JSVal) :
    List Rule → Except String (String × Nat)
  | [] => Except.ok ("", 0)
  | r :: rs =>
    match validateField env value (RuleInput.obj r) (some fd) with
    | Except.error e => Except.error e
    | Except.ok (true, _) =>
      match validateSingleFieldRulesCount env value fd rs with
      | Except.error e => Except.error e
      | Except.ok (m, n) => Except.ok (m, n + 1)
    | Except.ok (false, message) => Except.ok (message, 1)

/-- Instrumented `validateSingleField`. -/
def validateSingleFieldCount (env : JSEnv) (fields : List FieldConfig) (formValues : Rec JSVal)
    (fieldName : String) (value : JSVal) : Except String (String × Nat) :=
  match fields.find? (fun f => f.name = fieldName) with
  | none => Except.ok ("", 0)
  | some field =>
    match field.validators with
    | none => Except.ok ("", 0)
    | some vs =>
      validateSingleFieldRulesCount env value (Rec.set formValues fieldName value)
        (vs.map normalizeRule)

/-! ### Whole-form validation (validateForm in src/lib/validators.ts) -/

/-- Per-field part of `validateForm`: skip fields without rules, otherwise loop
the rules and stop at the first failure (`break`), reading the field's value
from the shared snapshot (`values[field.name]`, `undefined` when absent). -/
def firstFailureRules (env : JSEnv) (value : JSVal) (values : Rec JSVal) :
    List RuleInput → Except String (Option String)
  | [] => Except.ok none
  | r :: rs =>
    match validateField env value r (some values) with
    | Except.error e => Except.error e
    | Except.ok (true, _) => firstFailureRules env value values rs
    | Except.ok (false, message) => Except.ok (some message)

/-- One field of `validateForm` (the body of the `fields.map` callback). -/
def fieldFirstFailure (env : JSEnv) (values : Rec JSVal) (f : FormField) :
    Except String (Option String) :=
  match f.validators with
  | none => Except.ok none
  | some vs => firstFailureRules env ((Rec.get values f.name).getD JSVal.undefined) values vs

/-- Accumulating pass over the fields.  The source runs the fields concurrently
under `Promise.all`, but each per-field validation reads only the shared
immutable `values` snapshot and writes only its own `errors[field.name]` slot,
so the merged error map is order-independent and a sequential pass is
observably equal (a rejection likewise rejects `Promise.all`). -/
def validateFormAux (env : JSEnv) (values : Rec JSVal) :
    List FormField → Rec String → Except String (Rec String)
  | [], errors => Except.ok errors
  | f :: fs, errors =>
    match fieldFirstFailure env values f with
    | Except.error e => Except.error e
    | Except.ok (some msg) => validateFormAux env values fs (Rec.set errors f.name msg)
    | Except.ok none => validateFormAux env values fs errors

/-- `validateForm(values, fields)`: error map holding only non-empty results. -/
def validateForm (env : JSEnv) (values : Rec JSVal) (fields : List FormField) :
    Except String (Rec String) :=
  validateFormAux env values fields []

/-! ### Form state machine (useFormValidator in useFormValidator.ts) -/

/-- JS nullish coalescing `x ?? d` on an optional value. -/
def nullishOr (v : Option JSVal) (d : JSVal) : JSVal :=
  match v with
  | none => d
  | some JSVal.undefined => d
  | some JSVal.null => d
  | some x => x

/-- The initial `FormState`: per-field `defaultValue ?? ''`, empty errors, all
touched flags false, not validating, valid. -/
def initFormState (fields : List FieldConfig) : FormState :=
  { values := fields.foldl (fun acc f => Rec.set acc f.name (nullishOr f.defaultValue (JSVal.str ""))) []
    errors := []
    touched := fields.foldl (fun acc f => Rec.set acc f.name false) []
    isValidating := false
    isValid := true }

/-- `resetForm()`: replaces the whole state with a freshly rebuilt initial
state, ignoring the previous one. -/
def resetForm (fields : List FieldConfig) (_prev : FormState) : FormState :=
  initFormState fields

/-- `setFieldValue(fieldName, value)`: records the raw value; the returned flag
says whether a debounced single-field validation was scheduled (only in
`onChange` mode). -/
def setFieldValue (mode : String) (s : FormState) (fieldName : String) (value : JSVal) :
    FormState × Bool :=
  ({ s with values := Rec.set s.values fieldName value }, mode = "onChange")

/-- The state update applied when the debounced single-field validation
completes with message `error`: merge the message (empty or not) into `errors`,
recompute `isValid` as "every error entry is falsy", and mark the field touched
only when it errored and its current value is non-empty
(non-blank string, or non-string that is neither undefined nor null). -/
def debouncedValidateApply (s : FormState) (fname : String) (error : String) : FormState :=
  let updatedErrors := Rec.set s.errors fname error
  let isValid := updatedErrors.all (fun p => p.2 = "")
  let currentVal := (Rec.get s.values fname).getD JSVal.undefined
  let hasValue : Bool :=
    match currentVal with
    | JSVal.str cs => (jsTrim cs).length > 0
    | JSVal.undefined => false
    | JSVal.null => false
    | _ => true
  let nextTouched := if error ≠ "" && hasValue then Rec.set s.touched fname true else s.touched
  { s with errors := updatedErrors, touched := nextTouched, isValid := isValid }

/-- The full debounced callback (the function passed to `debounce`): validate
the single field, then apply the merge.  Nothing catches here, so a rejecting
rule makes the whole callback reject — inside a timer, i.e. an unhandled
asynchronous rejection. -/
def debouncedValidateRun (env : JSEnv) (fields : List FieldConfig) (s : FormState)
    (fname : String) (fvalue : JSVal) : Except String FormState :=
  match validateSingleField env fields s.values fname fvalue with
  | Except.error e => Except.error e
  | Except.ok error => Except.ok (debouncedValidateApply s fname error)

/-- The unconditional part of `setFieldTouched` (blur): mark the field touched. -/
def setFieldTouchedTouch (s : FormState) (fieldName : String) : FormState :=
  { s with touched := Rec.set s.touched fieldName true }

/-- The error merge `setFieldTouched` performs in `onBlur` mode once the
single-field validation resolved. -/
def blurMergeErrors (s : FormState) (fieldName : String) (error : String) : FormState :=
  let updatedErrors := Rec.set s.errors fieldName error
  { s with errors := updatedErrors, isValid := updatedErrors.all (fun p => p.2 = "") }

/-- `setFieldTouched(fieldName)`: touch unconditionally; in `onBlur` mode also
run the single-field validation on the current value and merge its result. -/
def setFieldTouchedRun (env : JSEnv) (fields : List FieldConfig) (mode : String)
    (s : FormState) (fieldName : String) : Except String FormState :=
  let s1 := setFieldTouchedTouch s fieldName
  if mode = "onBlur" then
    match validateSingleField env fields s.values fieldName
        ((Rec.get s.values fieldName).getD JSVal.undefined) with
    | Except.error e => Except.error e
    | Except.ok error => Except.ok (blurMergeErrors s1 fieldName error)
  else Except.ok s1

/-- The field transformation `validateFormFields` applies before calling
`validateForm`: bare strings become `\x7b type: v \x7d` rule objects. -/
def transformFields (fields : List FieldConfig) : List FormField :=
  fields.map (fun f =>
    { name := f.name
      validators := f.validators.map (fun vs => vs.map (fun v => RuleInput.obj (normalizeRule v))) })

/-- The first `setFormState` of `validateFormFields`: raise `isValidating`. -/
def validateAllStart (s : FormState) : FormState :=
  { s with isValidating := true }

/-- `validateFormFields()` (validate-all): raise `isValidating`, run
`validateForm` over the current values snapshot, replace the whole error map,
set `isValid` to "no error keys", drop `isValidating`, and return the aggregate
validity. -/
def validateFormFields (env : JSEnv) (fields : List FieldConfig) (s : FormState) :
    Except String (FormState × Bool) :=
  match validateForm env s.values (transformFields fields) with
  | Except.error e => Except.error e
  | Except.ok errs =>
    let s1 := validateAllStart s
    Except.ok ({ s1 with errors := errs, isValid := errs.isEmpty, isValidating := false },
      errs.isEmpty)

/-- `setFieldValues(values)`: bulk merge into `values`; `errors` and `touched`
are untouched. -/
def setFieldValues (s : FormState) (vals : Rec JSVal) : FormState :=
  { s with values := Rec.merge s.values vals }

/-! ### Submission controller (useFormSubmission in useFormValidator.ts) -/

/-- `\x7b isSubmitting, submitError, isThrottled \x7d`; `submitError = none` is
the cleared (`null`) state. -/
structure SubmissionState where
  isSubmitting : Bool := false
  submitError : Option String := none
  isThrottled : Bool := false
deriving DecidableEq, Repr

/-- The generic invalid-form submission error. -/
def fixErrorsMessage : String := "Please fix the errors in the form"

/-- The async body wrapped by `throttle` in `useFormSubmission`.
`validateOutcome` is what `await validateForm()` does (a rejection is modelled
as the thrown error's message, per `error instanceof Error ? error.message : …`),
`submitOutcome` what the external `onSubmit` callback does.  Returns the settled
submission state, whether the external callback was invoked, and whether the
`isThrottled` expiry timer was scheduled. -/
def runSubmitBody (validateOutcome : Except String Bool) (submitOutcome : Except String Unit)
    (s : SubmissionState) : SubmissionState × Bool × Bool :=
  let s1 : SubmissionState := { s with isSubmitting := true, submitError := none }
  match validateOutcome with
  | Except.error e => ({ s1 with submitError := some e, isSubmitting := false }, false, false)
  | Except.ok false =>
    ({ s1 with submitError := some fixErrorsMessage, isSubmitting := false }, false, false)
  | Except.ok true =>
    let s2 := { s1 with isThrottled := true }
    match submitOutcome with
    | Except.ok _ => ({ s2 with isSubmitting := false }, true, true)
    | Except.error e => ({ s2 with submitError := some e, isSubmitting := false }, true, true)

/-! ### Update scheduler (src/lib/debounceThrottle.ts)

The two wrappers are closures over timers.  They are modelled as deterministic
state machines consuming a time-ordered list of calls `(t, args)`; Lean values of
type `List (Nat × α)` are the invocations of the wrapped function, in order,
with the (virtual, millisecond) time at which each starts.  A pending
`setTimeout` is the stored absolute expiry time; it fires before any call whose
time is at or past the expiry, which matches the single-threaded event loop for
the strict-inequality timings every theorem below assumes. -/

/-- Closure state of `debounce`: the single pending timer (fire time, args),
if any. -/
def DebounceState (α : Type) : Type := Option (Nat × α)

/-- One call into the debounced function at time `t`: a pending timer that has
already become due fires first (emitting its invocation); then the pending
timer is replaced by `(t + wait, a)` (`clearTimeout` + fresh `setTimeout`). -/
def debounceCall (wait : Nat) (s : DebounceState α) (t : Nat) (a : α) :
    DebounceState α × List (Nat × α) :=
  match s with
  | some p => if p.1 ≤ t then (some (t + wait, a), [p]) else (some (t + wait, a), [])
  | none => (some (t + wait, a), [])

/-- Run a call sequence through `debounce`, flushing the final pending timer at
the end (the event loop eventually fires it). -/
def debounceRunAux (wait : Nat) (s : DebounceState α) (out : List (Nat × α)) :
    List (Nat × α) → List (Nat × α)
  | [] =>
    match s with
    | some p => out ++ [p]
    | none => out
  | c :: cs =>
    let r := debounceCall wait s c.1 c.2
    debounceRunAux wait r.1 (out ++ r.2) cs

/-- The invocations produced by `debounce(fn, wait)` for a time-ordered call
sequence. -/
def debounceRun (wait : Nat) (calls : List (Nat × α)) : List (Nat × α) :=
  debounceRunAux wait none [] calls

/-- Closure state of `throttle`: the `inThrottle` flag, the remembered
`trailingArgs`, and the pending cooldown timer's expiry time. -/
structure ThrottleState (α : Type) where
  inThrottle : Bool
  trailing : Option α
  expiry : Option Nat

/-- The cooldown timer fires at time `e`: drop `inThrottle`; if trailing args
were remembered, invoke them now (without starting a new cooldown). -/
def throttleExpire (s : ThrottleState α) (e : Nat) : ThrottleState α × List (Nat × α) :=
  match s.trailing with
  | some a => (⟨false, none, none⟩, [(e, a)])
  | none => (⟨false, none, none⟩, [])

/-- One call into the throttled function at time `t`: a due cooldown timer
fires first; then either invoke immediately and open a cooldown window
(`inThrottle = true`, timer at `t + limit`), or remember the args for the
trailing flush. -/
def throttleCall (limit : Nat) (s : ThrottleState α) (t : Nat) (a : α) :
    ThrottleState α × List (Nat × α) :=
  let r :=
    match s.expiry with
    | some e => if e ≤ t then throttleExpire s e else (s, [])
    | none => (s, [])
  if r.1.inThrottle then ({ r.1 with trailing := some a }, r.2)
  else (⟨true, r.1.trailing, some (t + limit)⟩, r.2 ++ [(t, a)])

/-- Run a call sequence through `throttle`, letting the final cooldown timer
fire at the end. -/
def throttleRunAux (limit : Nat) (s : ThrottleState α) (out : List (Nat × α)) :
    List (Nat × α) → List (Nat × α)
  | [] =>
    match s.expiry with
    | some e => out ++ (throttleExpire s e).2
    | none => out
  | c :: cs =>
    let r := throttleCall limit s c.1 c.2
    throttleRunAux limit r.1 (out ++ r.2) cs

/-- The invocations produced by `throttle(fn, limit)` for a time-ordered call
sequence. -/
def throttleRun (limit : Nat) (calls : List (Nat × α)) : List (Nat × α) :=
  throttleRunAux limit ⟨false, none, none⟩ [] calls

/-- The args of the last call of `c :: rest` (recursion mirroring how
`trailingArgs` is overwritten). -/
def lastArgD (tr : Option α) : List (Nat × α) → Option α
  | [] => tr
  | c :: cs => lastArgD (some c.2) cs

/-- The last element of a nonempty call list, with default head. -/
def lastCallD (c : Nat × α) : List (Nat × α) → Nat × α
  | [] => c
  | c2 :: cs => lastCallD c2 cs

/-- All consecutive gaps are inside the quiet window: each later call arrives
strictly before the previous call's timer fires. -/
def withinChain (wait : Nat) : Nat × α → List (Nat × α) → Bool
  | _, [] => true
  | c, c2 :: cs => decide (c2.1 < c.1 + wait) && withinChain wait c2 cs

/-! ### Concrete instances used to exercise the definitions -/

/-- A concrete host environment for closed evaluations; the paths exercised by
the closed theorems below never reach these three primitives. -/
def trivEnv : JSEnv :=
  { regexTest := fun _ _ => false
    urlParses := fun _ => false
    numberFinite := fun _ => false }

/-- A field whose configured rule list is empty. -/
def emptyRulesField : FieldConfig :=
  { name := "a", validators := some [] }

/-- A custom rule whose predicate throws. -/
def throwingRule : Rule :=
  { type := "custom", custom := some (fun _ _ => Except.error "boom") }

/-- A field with a single custom rule whose predicate throws. -/
def throwingField : FieldConfig :=
  { name := "a", validators := some [RuleInput.obj throwingRule] }

/-- A single required field. -/
def requiredField : FieldConfig :=
  { name := "a", validators := some [RuleInput.str "required"] }

/-- password / confirmPassword pair with a match rule. -/
def matchRule : Rule :=
  { type := "match", matchField := some "password" }

/-- minLength 5, as a rule object. -/
def minLength5Rule : Rule :=
  { type := "minLength", value := some (RuleValue.num 5) }

/-- Three-rule field used to exercise first-failure short-circuiting:
required, then minLength 5, then phone. -/
def threeRuleField : FieldConfig :=
  { name := "a"
    validators := some [RuleInput.str "required", RuleInput.obj minLength5Rule,
      RuleInput.str "phone"] }

/-- Decidable equality for `Except` results over decidable components. -/
instance {ε α : Type} [DecidableEq ε] [DecidableEq α] : DecidableEq (Except ε α) :=
  fun a b =>
    match a, b with
    | Except.ok x, Except.ok y =>
      if h : x = y then Decidable.isTrue (by rw [h])
      else Decidable.isFalse (by intro hh; cases hh; exact h rfl)
    | Except.error x, Except.error y =>
      if h : x = y then Decidable.isTrue (by rw [h])
      else Decidable.isFalse (by intro hh; cases hh; exact h rfl)
    | Except.ok _, Except.error _ => Decidable.isFalse (by intro hh; cases hh)
    | Except.error _, Except.ok _ => Decidable.isFalse (by intro hh; cases hh)

/-- The spec's structural invariant on a form state: every key of the errors
map is a key of the values map. -/
def errorsKeysSubset (s : FormState) : Prop :=
  ∀ k ∈ Rec.keys s.errors, k ∈ Rec.keys s.values

/-- A custom rule whose predicate throws with message `m`. -/
def throwingRuleWith (m : String) : Rule :=
  { type := "custom", custom := some (fun _ _ => Except.error m) }

/-- A field with a single custom rule whose predicate throws with message `m`. -/
def throwingFieldWith (m : String) : FieldConfig :=
  { name := "a", validators := some [RuleInput.obj (throwingRuleWith m)] }

/-- Two fields, one with a string default and one without. -/
def c9Fields : List FieldConfig :=
  [{ name := "a", defaultValue := some (JSVal.str "x") }, { name := "b" }]

/-- Four fields covering an absent, null, undefined and ordinary default. -/
def c10Fields : List FieldConfig :=
  [{ name := "a" }, { name := "b", defaultValue := some JSVal.null },
   { name := "c", defaultValue := some JSVal.undefined },
   { name := "d", defaultValue := some (JSVal.num 7) }]

/-! ## Theorems -/

/-! ### Record lemmas -/

theorem Rec.get_set_self {α : Type} (r : Rec α) (k : String) (v : α) :
    Rec.get (Rec.set r k v) k = some v := by
  induction r with
  | nil => simp [Rec.set, Rec.get]
  | cons p ps ih =>
    by_cases h : p.1 = k
    · simp [Rec.set, Rec.get, h]
    · simp [Rec.set, Rec.get, h, ih]

theorem Rec.get_set_ne {α : Type} (r : Rec α) (k k2 : String) (v : α) (h : k2 ≠ k) :
    Rec.get (Rec.set r k v) k2 = Rec.get r k2 := by
  have hk : ¬(k = k2) := fun hh => h hh.symm
  induction r with
  | nil => simp [Rec.set, Rec.get, hk]
  | cons p ps ih =>
    by_cases hp : p.1 = k
    · subst hp
      simp [Rec.set, Rec.get, hk]
    · simp only [Rec.set, hp, if_false]
      by_cases hp2 : p.1 = k2
      · simp [Rec.get, hp2]
      · simp [Rec.get, hp2, ih]

theorem Rec.mem_keys_set {α : Type} (r : Rec α) (k k2 : String) (v : α) :
    k2 ∈ Rec.keys (Rec.set r k v) ↔ k2 = k ∨ k2 ∈ Rec.keys r := by
  induction r with
  | nil => simp [Rec.set, Rec.keys, eq_comm]
  | cons p ps ih =>
    by_cases hp : p.1 = k
    · subst hp
      simp only [Rec.set]
      rw [if_pos trivial]
      simp only [Rec.keys, List.map_cons, List.mem_cons]
      tauto
    · simp only [Rec.set, hp, if_false]
      simp only [Rec.keys, List.map_cons, List.mem_cons] at ih ⊢
      tauto

theorem Rec.get_eq_none_of_not_mem_keys {α : Type} (r : Rec α) (k : String)
    (h : k ∉ Rec.keys r) : Rec.get r k = none := by
  induction r with
  | nil => simp [Rec.get]
  | cons p ps ih =>
    simp only [Rec.keys, List.map_cons, List.mem_cons] at h
    push_neg at h
    have hp : ¬(p.1 = k) := fun hh => h.1 hh.symm
    simp [Rec.get, hp, ih h.2]

theorem Rec.get_set_cases {α : Type} (r : Rec α) (k k0 : String) (v b : α)
    (h : Rec.get (Rec.set r k0 v) k = some b) :
    (k = k0 ∧ b = v) ∨ Rec.get r k = some b := by
  by_cases hk : k = k0
  · subst hk
    rw [Rec.get_set_self] at h
    exact Or.inl ⟨rfl, (Option.some_inj.mp h).symm⟩
  · rw [Rec.get_set_ne r k0 k v hk] at h
    exact Or.inr h

theorem Rec.mem_keys_merge_left {α : Type} (r r2 : Rec α) (k : String)
    (h : k ∈ Rec.keys r) : k ∈ Rec.keys (Rec.merge r r2) := by
  induction r2 generalizing r with
  | nil => exact h
  | cons p ps ih =>
    exact ih (Rec.set r p.1 p.2) ((Rec.mem_keys_set r p.1 k p.2).mpr (Or.inr h))

/-! ### Rule-loop lemmas -/

theorem validateSingleFieldRulesCount_first_fail (env : JSEnv) (value : JSVal) (fd : Rec JSVal)
    (rules : List Rule) (res : Nat → Bool × String) (i : Nat)
    (hres : ∀ j, j < rules.length →
      validateField env value (RuleInput.obj (rules.getD j { type := "" })) (some fd)
        = Except.ok (res j))
    (hi : i < rules.length) (hfail : (res i).1 = false)
    (hpre : ∀ j, j < i → (res j).1 = true) :
    validateSingleFieldRulesCount env value fd rules = Except.ok ((res i).2, i + 1) := by
  induction rules generalizing res i with
  | nil => exact absurd hi (by simp)
  | cons r rs ih =>
    have h0 : validateField env value (RuleInput.obj r) (some fd) = Except.ok (res 0) :=
      hres 0 (by simp)
    rcases hr0 : res 0 with ⟨b0, m0⟩
    rw [hr0] at h0
    cases i with
    | zero =>
      have hb0 : b0 = false := by rw [hr0] at hfail; exact hfail
      subst hb0
      simp [validateSingleFieldRulesCount, h0, hr0]
    | succ i =>
      have hb0 : b0 = true := by
        have := hpre 0 (Nat.succ_pos i)
        rw [hr0] at this
        exact this
      subst hb0
      have hrec := ih (fun j => res (j + 1)) i
        (by
          intro j hj
          exact hres (j + 1) (Nat.succ_lt_succ hj))
        (Nat.lt_of_succ_lt_succ hi)
        hfail
        (by intro j hj; exact hpre (j + 1) (Nat.succ_lt_succ hj))
      simp [validateSingleFieldRulesCount, h0, hrec]

theorem validateSingleFieldRules_eq_count (env : JSEnv) (value : JSVal) (fd : Rec JSVal)
    (rules : List Rule) :
    validateSingleFieldRules env value fd rules
      = (validateSingleFieldRulesCount env value fd rules).map Prod.fst := by
  induction rules with
  | nil => rfl
  | cons r rs ih =>
    cases h : validateField env value (RuleInput.obj r) (some fd) with
    | error e => simp [validateSingleFieldRules, validateSingleFieldRulesCount, h, Except.map]
    | ok p =>
      rcases p with ⟨b, m⟩
      cases b with
      | false => simp [validateSingleFieldRules, validateSingleFieldRulesCount, h, Except.map]
      | true =>
        simp only [validateSingleFieldRules, validateSingleFieldRulesCount, h]
        rw [ih]
        cases hc : validateSingleFieldRulesCount env value fd rs with
        | error e => simp [Except.map]
        | ok p2 => simp [Except.map]

/-! ### Claim C1 -/

/-- C1: for a configured field, validation evaluates the rule list in
declaration order; at the first failing rule (index `i`, all earlier rules
passing) it resolves to that rule's message having evaluated exactly `i + 1`
rules — no later rule is evaluated; for an unknown field, a missing
`validators` property, or an empty rule list it resolves to the empty string. -/
theorem c1_first_failure_short_circuit (env : JSEnv) (fields : List FieldConfig)
    (values : Rec JSVal) (fieldName : String) (value : JSVal) :
    (∀ (field : FieldConfig) (vs : List RuleInput) (res : Nat → Bool × String) (i : Nat),
      fields.find? (fun f => f.name = fieldName) = some field →
      field.validators = some vs →
      (∀ j, j < (vs.map normalizeRule).length →
        validateField env value (RuleInput.obj ((vs.map normalizeRule).getD j { type := "" }))
          (some (Rec.set values fieldName value)) = Except.ok (res j)) →
      i < (vs.map normalizeRule).length →
      (res i).1 = false →
      (∀ j, j < i → (res j).1 = true) →
      validateSingleField env fields values fieldName value = Except.ok (res i).2 ∧
      validateSingleFieldCount env fields values fieldName value = Except.ok ((res i).2, i + 1)) ∧
    (fields.find? (fun f => f.name = fieldName) = none →
      validateSingleField env fields values fieldName value = Except.ok "") ∧
    (∀ field, fields.find? (fun f => f.name = fieldName) = some field →
      field.validators = none →
      validateSingleField env fields values fieldName value = Except.ok "") ∧
    (∀ field, fields.find? (fun f => f.name = fieldName) = some field →
      field.validators = some [] →
      validateSingleField env fields values fieldName value = Except.ok "" ∧
      validateSingleFieldCount env fields values fieldName value = Except.ok ("", 0)) := by
  refine ⟨?_, ?_, ?_, ?_⟩
  · intro field vs res i hfind hvs hres hi hfail hpre
    have hcount := validateSingleFieldRulesCount_first_fail env value
      (Rec.set values fieldName value) (vs.map normalizeRule) res i hres hi hfail hpre
    constructor
    · simp [validateSingleField, hfind, hvs, validateSingleFieldRules_eq_count, hcount,
        Except.map]
    · simp [validateSingleFieldCount, hfind, hvs, hcount]
  · intro hfind
    simp [validateSingleField, hfind]
  · intro field hfind hvs
    simp [validateSingleField, hfind, hvs]
  · intro field hfind hvs
    constructor
    · simp [validateSingleField, hfind, hvs, validateSingleFieldRules]
    · simp [validateSingleFieldCount, hfind, hvs, validateSingleFieldRulesCount]

/-- C1 witness: on value `"ab"` for a field with rules
[required, minLength 5, phone], the first two rules are evaluated (required
passes, minLength 5 fails), the result is the minLength message, and the phone
rule is never evaluated. -/
theorem c1_witness :
    validateSingleField trivEnv [threeRuleField] [] "a" (JSVal.str "ab")
        = Except.ok "This field must be at least 5 characters" ∧
    validateSingleFieldCount trivEnv [threeRuleField] [] "a" (JSVal.str "ab")
        = Except.ok ("This field must be at least 5 characters", 2) := by
  have h := (c1_first_failure_short_circuit trivEnv [threeRuleField] [] "a" (JSVal.str "ab")).1
    threeRuleField
    [RuleInput.str "required", RuleInput.obj minLength5Rule, RuleInput.str "phone"]
    (fun j => if j = 0 then (true, "This field is required")
      else if j = 1 then (false, "This field must be at least 5 characters")
      else (false, "Please enter a valid phone number"))
    1
    rfl
    rfl
    (by
      intro j hj
      simp only [List.length_map, List.length_cons, List.length_nil] at hj
      interval_cases j <;> decide)
    (by decide)
    (by decide)
    (by intro j hj; interval_cases j; decide)
  exact h

/-! ### Claim C2 -/

/-- C2 counterexample: the claim states that a match rule always fails when no
sibling data is supplied.  On the code, with `formData` undefined the
`matchField` branch of `validateField` is skipped and the rule falls through to
`VALIDATORS.match` — a pattern test — which, having no pattern parameter,
resolves VALID for the string value `"x"`. -/
theorem c2_counterexample :
    validateField trivEnv (JSVal.str "x")
        (RuleInput.obj { type := "match", matchField := some "other" }) none
      = Except.ok (true, "This field does not match the required pattern") := by
  decide

/-- C2 (amended): when the match rule has a nonempty `matchField` and a sibling
snapshot is supplied, it is valid iff the current value is strictly equal
(`===`, case- and type-sensitive) to the snapshot value under that name, where
an absent name reads as `undefined` (so the rule fails unless the current value
is itself `undefined`); when no sibling data is supplied the rule does not
always fail — it degrades to the pattern validator, passing every string value
when no pattern parameter is set. -/
theorem c2_match_strict_equality (env : JSEnv) (value : JSVal) (rule : Rule)
    (fd : Rec JSVal) (mf : String)
    (htype : rule.type = "match") (hmf : rule.matchField = some mf) (hne : mf ≠ "")
    (hcustom : rule.custom = none) :
    validateField env value (RuleInput.obj rule) (some fd)
      = Except.ok (jsStrictEq value ((Rec.get fd mf).getD JSVal.undefined),
          messageOr rule.message ("This field must match " ++ mf)) ∧
    (∀ (s : String) (rule2 : Rule), rule2.type = "match" → rule2.custom = none →
      rule2.value = none →
      validateField env (JSVal.str s) (RuleInput.obj rule2) none
        = Except.ok (true, messageOr rule2.message (defaultMessage "match"))) := by
  constructor
  · simp [validateField, normalizeRule, htype, hcustom, hmf, matchFieldTruthy, hne]
  · intro s rule2 h1 h2 h3
    simp [validateField, normalizeRule, h1, h2, h3, isValidType, runBuiltin, vPattern,
      substValue]

/-- C2 witness: `confirmPassword = "abc123"` against
`values.password = "abc123"` is valid with the match message; and a match rule
evaluated without sibling data passes for the string value `"y"`. -/
theorem c2_witness :
    validateField trivEnv (JSVal.str "abc123") (RuleInput.obj matchRule)
        (some [("password", JSVal.str "abc123")])
      = Except.ok (true, "This field must match password") ∧
    validateField trivEnv (JSVal.str "y") (RuleInput.obj { type := "match" }) none
      = Except.ok (true, "This field does not match the required pattern") := by
  have h := c2_match_strict_equality trivEnv (JSVal.str "abc123") matchRule
    [("password", JSVal.str "abc123")] "password" rfl rfl (by decide) rfl
  exact ⟨h.1, h.2 "y" { type := "match" } rfl rfl rfl⟩

/-! ### Whole-form validation lemmas -/

theorem validateFormAux_get_untouched (env : JSEnv) (values : Rec JSVal) (name : String) :
    ∀ (fs : List FormField) (acc errs : Rec String),
      validateFormAux env values fs acc = Except.ok errs →
      name ∉ fs.map FormField.name →
      Rec.get errs name = Rec.get acc name := by
  intro fs
  induction fs with
  | nil =>
    intro acc errs h _
    simp only [validateFormAux] at h
    cases h
    rfl
  | cons g gs ih =>
    intro acc errs h hname
    simp only [List.map_cons, List.mem_cons] at hname
    push_neg at hname
    cases hg : fieldFirstFailure env values g with
    | error e => simp [validateFormAux, hg] at h
    | ok o =>
      cases o with
      | some msg =>
        simp only [validateFormAux, hg] at h
        rw [ih _ _ h hname.2]
        exact Rec.get_set_ne acc g.name name msg hname.1
      | none =>
        simp only [validateFormAux, hg] at h
        exact ih _ _ h hname.2

theorem validateFormAux_field_result (env : JSEnv) (values : Rec JSVal) :
    ∀ (fs : List FormField) (acc errs : Rec String),
      validateFormAux env values fs acc = Except.ok errs →
      (fs.map FormField.name).Nodup →
      ∀ f ∈ fs, Rec.get acc f.name = none →
        fieldFirstFailure env values f = Except.ok (Rec.get errs f.name) := by
  intro fs
  induction fs with
  | nil =>
    intro acc errs _ _ f hf
    exact absurd hf (List.not_mem_nil f)
  | cons g gs ih =>
    intro acc errs h hd f hf hacc
    simp only [List.map_cons, List.nodup_cons] at hd
    cases hg : fieldFirstFailure env values g with
    | error e => simp [validateFormAux, hg] at h
    | ok o =>
      simp only [validateFormAux, hg] at h
      rcases List.mem_cons.mp hf with rfl | hf2
      · rw [hg]
        congr 1
        cases o with
        | some msg =>
          rw [validateFormAux_get_untouched env values f.name gs _ errs h hd.1]
          rw [Rec.get_set_self]
        | none =>
          rw [validateFormAux_get_untouched env values f.name gs _ errs h hd.1]
          rw [hacc]
      · have hne : f.name ≠ g.name := by
          intro hcontra
          exact hd.1 (hcontra ▸ List.mem_map_of_mem FormField.name hf2)
        cases o with
        | some msg =>
          refine ih _ _ h hd.2 f hf2 ?_
          rw [Rec.get_set_ne acc g.name f.name msg hne]
          exact hacc
        | none => exact ih _ _ h hd.2 f hf2 hacc

theorem validateFormAux_keys (env : JSEnv) (values : Rec JSVal) :
    ∀ (fs : List FormField) (acc errs : Rec String),
      validateFormAux env values fs acc = Except.ok errs →
      ∀ k ∈ Rec.keys errs, k ∈ Rec.keys acc ∨ k ∈ fs.map FormField.name := by
  intro fs
  induction fs with
  | nil =>
    intro acc errs h k hk
    simp only [validateFormAux] at h
    cases h
    exact Or.inl hk
  | cons g gs ih =>
    intro acc errs h k hk
    simp only [List.map_cons, List.mem_cons]
    cases hg : fieldFirstFailure env values g with
    | error e => simp [validateFormAux, hg] at h
    | ok o =>
      simp only [validateFormAux, hg] at h
      cases o with
      | some msg =>
        rcases ih _ _ h k hk with hin | hin
        · rcases (Rec.mem_keys_set acc g.name k msg).mp hin with rfl | hin2
          · exact Or.inr (Or.inl rfl)
          · exact Or.inl hin2
        · exact Or.inr (Or.inr hin)
      | none =>
        rcases ih _ _ h k hk with hin | hin
        · exact Or.inl hin
        · exact Or.inr (Or.inr hin)

/-! ### Claim C3 -/

/-- C3: validate-all raises `isValidating` for the duration of the pass,
replaces the entire errors map with the freshly computed per-field results —
each configured field's entry is exactly its first-failure result (absent when
the field passes, so stale errors are cleared) and no other key exists — sets
`isValid` to "errors map empty", drops `isValidating`, and returns the
aggregate validity boolean. -/
theorem c3_validate_all_replaces_errors (env : JSEnv) (fields : List FieldConfig)
    (s : FormState) (errs : Rec String)
    (hok : validateForm env s.values (transformFields fields) = Except.ok errs)
    (hnodup : ((transformFields fields).map FormField.name).Nodup) :
    (validateAllStart s).isValidating = true ∧
    validateFormFields env fields s
      = Except.ok ({ s with errors := errs, isValid := errs.isEmpty, isValidating := false },
          errs.isEmpty) ∧
    (∀ f ∈ transformFields fields,
      fieldFirstFailure env s.values f = Except.ok (Rec.get errs f.name)) ∧
    (∀ name, name ∉ (transformFields fields).map FormField.name →
      Rec.get errs name = none) := by
  refine ⟨rfl, ?_, ?_, ?_⟩
  · simp [validateFormFields, hok, validateAllStart]
  · intro f hf
    exact validateFormAux_field_result env s.values (transformFields fields) [] errs hok
      hnodup f hf rfl
  · intro name hname
    exact validateFormAux_get_untouched env s.values name (transformFields fields) [] errs
      hok hname

/-- C3 witness: a single required field with empty value — validate-all
replaces the errors map with exactly that field's message, sets isValid false
and returns false. -/
theorem c3_witness :
    validateFormFields trivEnv [requiredField] (initFormState [requiredField])
      = Except.ok (⟨[("a", JSVal.str "")], [("a", "This field is required")],
          [("a", false)], false, false⟩, false) := by
  have h := c3_validate_all_replaces_errors trivEnv [requiredField]
    (initFormState [requiredField]) [("a", "This field is required")] (by decide) (by decide)
  exact h.2.1

/-! ### Throttle and debounce lemmas -/

theorem throttleRunAux_window (α : Type) (limit t0 : Nat) :
    ∀ (rest : List (Nat × α)) (tr : Option α) (out : List (Nat × α)),
      (∀ c ∈ rest, c.1 < t0 + limit) →
      throttleRunAux limit ⟨true, tr, some (t0 + limit)⟩ out rest
        = out ++ (match lastArgD tr rest with
            | some a => [(t0 + limit, a)]
            | none => []) := by
  intro rest
  induction rest with
  | nil =>
    intro tr out _
    cases tr <;> simp [throttleRunAux, throttleExpire, lastArgD]
  | cons c cs ih =>
    intro tr out hw
    have hc : c.1 < t0 + limit := hw c (List.mem_cons_self c cs)
    have hnot : ¬(t0 + limit ≤ c.1) := by omega
    have hstep : throttleRunAux limit ⟨true, tr, some (t0 + limit)⟩ out (c :: cs)
        = throttleRunAux limit ⟨true, some c.2, some (t0 + limit)⟩ (out ++ []) cs := by
      simp [throttleRunAux, throttleCall, hnot]
    rw [hstep, ih (some c.2) (out ++ []) (fun d hd => hw d (List.mem_cons_of_mem c hd))]
    simp [lastArgD]

theorem debounceRunAux_chain (α : Type) (wait : Nat) :
    ∀ (cs : List (Nat × α)) (t : Nat) (a : α) (out : List (Nat × α)),
      withinChain wait (t, a) cs = true →
      debounceRunAux wait (some (t + wait, a)) out cs
        = out ++ [((lastCallD (t, a) cs).1 + wait, (lastCallD (t, a) cs).2)] := by
  intro cs
  induction cs with
  | nil =>
    intro t a out _
    simp [debounceRunAux, lastCallD]
  | cons c cs2 ih =>
    intro t a out hchain
    simp only [withinChain, Bool.and_eq_true, decide_eq_true_eq] at hchain
    have hlt : ¬(t + wait ≤ c.1) := by omega
    have hstep : debounceRunAux wait (some (t + wait, a)) out (c :: cs2)
        = debounceRunAux wait (some (c.1 + wait, c.2)) (out ++ []) cs2 := by
      simp [debounceRunAux, debounceCall, hlt]
    rw [hstep, ih c.1 c.2 (out ++ []) hchain.2]
    simp [lastCallD]

/-! ### Claim C4 -/

/-- C4 counterexample: the claim says that after an invalid submission attempt
"the throttle window is not started, so an immediately following corrected
submission is not blocked".  The submit handler is the `throttle`-wrapped body,
and the wrapper opens its cooldown on every admitted call — valid or not: after
an attempt at t=0, a second attempt at t=5 (within the 1000ms window) produces
no invocation at time 5; it is deferred to the trailing flush at t=1000. -/
theorem c4_counterexample :
    throttleRun 1000 [((0 : Nat), false), (5, true)] = [(0, false), (1000, true)] ∧
    List.filter (fun c => c.1 == 5) (throttleRun 1000 [((0 : Nat), false), (5, true)])
      = [] := by
  decide

/-- C4 (amended): on a submission attempt over an invalid form the external
callback is never invoked, `submitError` becomes the generic fix-form-errors
message, `isSubmitting` returns to false, and the `isThrottled` window (with its
expiry timer) is not started; however the `throttle` wrapper around the submit
body opens its own cooldown on any attempt, so an immediately following
corrected submission inside the cooldown does not execute at its call time —
it is deferred to the trailing flush when the cooldown elapses. -/
theorem c4_invalid_submission (s : SubmissionState) (so : Except String Unit) :
    runSubmitBody (Except.ok false) so s
      = (⟨false, some fixErrorsMessage, s.isThrottled⟩, false, false) ∧
    (∀ (α : Type) (limit t0 t1 : Nat) (a b : α), t0 < t1 → t1 < t0 + limit →
      throttleRun limit [(t0, a), (t1, b)] = [(t0, a), (t0 + limit, b)]) := by
  constructor
  · rfl
  · intro α limit t0 t1 a b h1 h2
    have h0 : throttleRun limit [(t0, a), (t1, b)]
        = throttleRunAux limit ⟨true, none, some (t0 + limit)⟩ [(t0, a)] [(t1, b)] := rfl
    rw [h0, throttleRunAux_window α limit t0 [(t1, b)] none [(t0, a)]
      (by intro c hc; rcases List.mem_singleton.mp hc with rfl; exact h2)]
    simp [lastArgD]

/-- C4 witness: concrete invalid attempt followed by a call 5ms later inside a
1000ms window. -/
theorem c4_witness :
    runSubmitBody (Except.ok false) (Except.ok ()) ⟨false, none, false⟩
      = (⟨false, some fixErrorsMessage, false⟩, false, false) ∧
    throttleRun 1000 [((0 : Nat), true), (5, false)] = [(0, true), (1000, false)] := by
  have h := c4_invalid_submission ⟨false, none, false⟩ (Except.ok ())
  exact ⟨h.1, h.2 Bool 1000 0 5 true false (by decide) (by decide)⟩

/-! ### Claim C5 -/

/-- C5: for any sequence of calls to the throttled submit function that all
arrive inside the first call's cooldown window, the first call executes
immediately at its call time; no further invocation starts inside the window;
and when later calls exist, exactly one trailing invocation fires at the moment
the cooldown elapses, carrying the arguments of the most recent call — no
intermediate invocation, and the latest call is not lost. -/
theorem c5_throttle_single_window (α : Type) (limit t0 : Nat) (a0 : α)
    (rest : List (Nat × α))
    (hw : ∀ c ∈ rest, t0 < c.1 ∧ c.1 < t0 + limit) :
    throttleRun limit ((t0, a0) :: rest)
      = (t0, a0) :: (match lastArgD none rest with
          | some a => [(t0 + limit, a)]
          | none => []) := by
  have h0 : throttleRun limit ((t0, a0) :: rest)
      = throttleRunAux limit ⟨true, none, some (t0 + limit)⟩ [(t0, a0)] rest := rfl
  rw [h0, throttleRunAux_window α limit t0 rest none [(t0, a0)] (fun c hc => (hw c hc).2)]
  simp

/-- C5 witness: five calls inside one 1000ms window — one immediate invocation
with the first call's arguments and one trailing invocation at window end with
the fifth call's arguments. -/
theorem c5_witness :
    throttleRun 1000 [((0 : Nat), (10 : Nat)), (1, 11), (2, 12), (3, 13), (4, 14)]
      = [(0, 10), (1000, 14)] := by
  exact c5_throttle_single_window Nat 1000 0 10 [(1, 11), (2, 12), (3, 13), (4, 14)]
    (by decide)

/-! ### Claim C6 -/

/-- C6: `setFieldValue` in on-change mode records the value and schedules the
debounced validation (and does not in other modes); each call resets the single
pending timer, so a burst of calls each arriving before the previous timer
fires produces exactly one validation pass, which fires one quiet window after
the last call and carries the last call's arguments. -/
theorem c6_debounced_single_pass (α : Type) (wait : Nat) (c0 : Nat × α)
    (rest : List (Nat × α)) (hchain : withinChain wait c0 rest = true) :
    debounceRun wait (c0 :: rest)
      = [((lastCallD c0 rest).1 + wait, (lastCallD c0 rest).2)] ∧
    (∀ (s : FormState) (name : String) (v : JSVal),
      (setFieldValue "onChange" s name v).2 = true ∧
      (setFieldValue "onChange" s name v).1.values = Rec.set s.values name v ∧
      (setFieldValue "onSubmit" s name v).2 = false ∧
      (setFieldValue "onBlur" s name v).2 = false) := by
  constructor
  · have h0 : debounceRun wait (c0 :: rest)
        = debounceRunAux wait (some (c0.1 + wait, c0.2)) [] rest := rfl
    rw [h0, debounceRunAux_chain α wait rest c0.1 c0.2 [] hchain]
    simp
  · intro s name v
    exact ⟨rfl, rfl, rfl, rfl⟩

/-- C6 witness: three `setFieldValue` bursts 100ms apart inside a 300ms window
produce a single validation pass at t=500 carrying the third value. -/
theorem c6_witness :
    debounceRun 300 [((0 : Nat), JSVal.str "a"), (100, JSVal.str "ab"), (200, JSVal.str "abc")]
      = [(500, JSVal.str "abc")] := by
  have h := c6_debounced_single_pass JSVal 300 (0, JSVal.str "a")
    [(100, JSVal.str "ab"), (200, JSVal.str "abc")] (by decide)
  exact h.1

/-! ### Claim C7 -/

/-- C7 counterexample: a blur in onBlur mode on a configured field with an
empty rule list leaves the entry `("a", "")` in the errors map even though the
field is currently passing (its validation resolves to the empty string).  An
entry therefore exists for a non-failing field, refuting "an entry is present
in the errors map only for a currently-failing field". -/
theorem c7_counterexample :
    setFieldTouchedRun trivEnv [emptyRulesField] "onBlur" (initFormState [emptyRulesField]) "a"
      = Except.ok ⟨[("a", JSVal.str "")], [("a", "")], [("a", true)], false, true⟩ ∧
    Rec.get [("a", "")] "a" = some "" ∧
    validateSingleField trivEnv [emptyRulesField] [("a", JSVal.str "")] "a" (JSVal.str "")
      = Except.ok "" := by
  decide

/-- C7 (amended): every operation preserves the structural half of the
invariant — the keys of the errors map stay a subset of the keys of the values
map — provided the merged field name is already a values key (true for every
configured field) and every configured field name is a values key for
validate-all; but single-field merges may store the empty string for a passing
field, so a field is to be read as failing only when its entry exists and is
nonempty, not merely when an entry exists. -/
theorem c7_subset_invariant_preserved (env : JSEnv) (mode : String)
    (fields : List FieldConfig) (s : FormState) (name : String) (v : JSVal)
    (error : String) (vals : Rec JSVal) (out : FormState) (b : Bool)
    (hs : errorsKeysSubset s) :
    errorsKeysSubset ((setFieldValue mode s name v).1) ∧
    (name ∈ Rec.keys s.values → errorsKeysSubset (debouncedValidateApply s name error)) ∧
    (name ∈ Rec.keys s.values →
      errorsKeysSubset (blurMergeErrors (setFieldTouchedTouch s name) name error)) ∧
    ((∀ f ∈ fields, f.name ∈ Rec.keys s.values) →
      validateFormFields env fields s = Except.ok (out, b) → errorsKeysSubset out) ∧
    errorsKeysSubset (resetForm fields s) ∧
    errorsKeysSubset (setFieldValues s vals) := by
  refine ⟨?_, ?_, ?_, ?_, ?_, ?_⟩
  · intro k hk
    exact (Rec.mem_keys_set s.values name k v).mpr (Or.inr (hs k hk))
  · intro hname k hk
    rcases (Rec.mem_keys_set s.errors name k error).mp hk with rfl | hk2
    · exact hname
    · exact hs k hk2
  · intro hname k hk
    rcases (Rec.mem_keys_set s.errors name k error).mp hk with rfl | hk2
    · exact hname
    · exact hs k hk2
  · intro hfields hok k hk
    cases hv : validateForm env s.values (transformFields fields) with
    | error e => simp [validateFormFields, hv] at hok
    | ok errs =>
      simp only [validateFormFields, hv, Except.ok.injEq, Prod.mk.injEq] at hok
      rcases hok with ⟨rfl, rfl⟩
      rcases validateFormAux_keys env s.values (transformFields fields) [] errs hv k hk
        with hin | hin
      · exact absurd hin (by simp [Rec.keys])
      · simp only [transformFields, List.map_map, List.mem_map] at hin
        rcases hin with ⟨f, hf, hfk⟩
        have : f.name ∈ Rec.keys s.values := hfields f hf
        rw [show (FormField.name ∘ fun f : FieldConfig =>
          ({ name := f.name, validators := f.validators.map (fun vs =>
            vs.map (fun v2 => RuleInput.obj (normalizeRule v2))) } : FormField)) f
          = f.name from rfl] at hfk
        rw [← hfk]
        exact this
  · intro k hk
    exact absurd hk (by simp [resetForm, initFormState, Rec.keys])
  · intro k hk
    exact Rec.mem_keys_merge_left s.values vals k (hs k hk)

/-- C7 witness: the subset invariant holds after a debounced merge and after a
value change on the single configured field of a concrete form. -/
theorem c7_witness :
    errorsKeysSubset (debouncedValidateApply (initFormState [requiredField]) "a"
      "This field is required") ∧
    errorsKeysSubset ((setFieldValue "onChange" (initFormState [requiredField]) "a"
      (JSVal.str "hi")).1) := by
  have h := c7_subset_invariant_preserved trivEnv "onChange" [requiredField]
    (initFormState [requiredField]) "a" (JSVal.str "hi") "This field is required" []
    (initFormState [requiredField]) true (by intro k hk; exact absurd hk (List.not_mem_nil k))
  exact ⟨h.2.1 (by decide), h.1⟩

/-! ### Claim C8 -/

/-- C8 counterexample: a custom rule whose predicate throws makes the debounced
on-change validation callback reject: `debouncedValidateRun` — the body handed
to `debounce`, which runs inside a timer with no catch anywhere — evaluates to
`Except.error "boom"`.  The failure is not resolved into state fields; it
escapes as an unhandled asynchronous rejection, refuting the claim. -/
theorem c8_counterexample :
    debouncedValidateRun trivEnv [throwingField] (initFormState [throwingField]) "a"
      (JSVal.str "x") = Except.error "boom" := by
  decide

/-- C8 (amended): submission-path failures are resolved locally — a rejecting
validate-all is caught, its message surfaced via submitError, isSubmitting
reset, the callback not invoked — but the single-field validation paths do not
catch: a custom predicate throwing `m` makes both the debounced on-change
callback and the on-blur handler reject with `m`, escaping as unhandled
asynchronous rejections. -/
theorem c8_rejection_policy (e : String) (so : Except String Unit) (s : SubmissionState) :
    runSubmitBody (Except.error e) so s
      = (⟨false, some e, s.isThrottled⟩, false, false) ∧
    (∀ (m : String) (st : FormState) (v : JSVal),
      debouncedValidateRun trivEnv [throwingFieldWith m] st "a" v = Except.error m) ∧
    (∀ (m : String) (st : FormState),
      setFieldTouchedRun trivEnv [throwingFieldWith m] "onBlur" st "a" = Except.error m) := by
  refine ⟨rfl, ?_, ?_⟩
  · intro m st v
    simp [debouncedValidateRun, validateSingleField, throwingFieldWith, throwingRuleWith,
      validateSingleFieldRules, validateField, normalizeRule, List.find?]
  · intro m st
    simp [setFieldTouchedRun, validateSingleField, throwingFieldWith, throwingRuleWith,
      validateSingleFieldRules, validateField, normalizeRule, List.find?]

/-! ### Foldl-set lemmas for the initial state -/

theorem Rec.get_foldl_set_not_mem {α : Type} (valueOf : FieldConfig → α) :
    ∀ (fs : List FieldConfig) (acc : Rec α) (name : String),
      name ∉ fs.map FieldConfig.name →
      Rec.get (fs.foldl (fun a f => Rec.set a f.name (valueOf f)) acc) name
        = Rec.get acc name := by
  intro fs
  induction fs with
  | nil => intro acc name _; rfl
  | cons f fs ih =>
    intro acc name hname
    simp only [List.map_cons, List.mem_cons] at hname
    push_neg at hname
    rw [List.foldl_cons, ih _ name hname.2]
    exact Rec.get_set_ne acc f.name name (valueOf f) hname.1

theorem Rec.get_foldl_set_mem {α : Type} (valueOf : FieldConfig → α) :
    ∀ (fs : List FieldConfig) (acc : Rec α) (f : FieldConfig),
      (fs.map FieldConfig.name).Nodup → f ∈ fs →
      Rec.get (fs.foldl (fun a f2 => Rec.set a f2.name (valueOf f2)) acc) f.name
        = some (valueOf f) := by
  intro fs
  induction fs with
  | nil => intro acc f _ hf; exact absurd hf (List.not_mem_nil f)
  | cons g gs ih =>
    intro acc f hd hf
    simp only [List.map_cons, List.nodup_cons] at hd
    rcases List.mem_cons.mp hf with rfl | hf2
    · rw [List.foldl_cons, Rec.get_foldl_set_not_mem valueOf gs _ f.name hd.1]
      exact Rec.get_set_self acc f.name (valueOf f)
    · rw [List.foldl_cons]
      exact ih _ f hd.2 hf2

theorem Rec.get_foldl_set_false :
    ∀ (fs : List FieldConfig) (acc : Rec Bool) (k : String) (b : Bool),
      (∀ k2 b2, Rec.get acc k2 = some b2 → b2 = false) →
      Rec.get (fs.foldl (fun a f => Rec.set a f.name false) acc) k = some b → b = false := by
  intro fs
  induction fs with
  | nil => intro acc k b hacc h; exact hacc k b h
  | cons f fs ih =>
    intro acc k b hacc h
    rw [List.foldl_cons] at h
    refine ih _ k b ?_ h
    intro k2 b2 h2
    rcases Rec.get_set_cases acc k2 f.name false b2 h2 with ⟨_, rfl⟩ | h3
    · rfl
    · exact hacc k2 b2 h3

/-! ### Claim C9 -/

/-- C9: resetForm ignores the prior state entirely and rebuilds the initial
state: every configured field's value is its declared default (after `?? ''`),
the errors map is empty, no field is touched (every flag is false), isValid is
true, and the in-flight flag isValidating is false. -/
theorem c9_reset_restores_defaults (fields : List FieldConfig) (s : FormState)
    (hnodup : (fields.map FieldConfig.name).Nodup) :
    resetForm fields s = initFormState fields ∧
    (∀ f ∈ fields, Rec.get (resetForm fields s).values f.name
      = some (nullishOr f.defaultValue (JSVal.str ""))) ∧
    (resetForm fields s).errors = [] ∧
    (∀ k b, Rec.get (resetForm fields s).touched k = some b → b = false) ∧
    (resetForm fields s).isValid = true ∧
    (resetForm fields s).isValidating = false := by
  refine ⟨rfl, ?_, rfl, ?_, rfl, rfl⟩
  · intro f hf
    exact Rec.get_foldl_set_mem (fun f2 => nullishOr f2.defaultValue (JSVal.str ""))
      fields [] f hnodup hf
  · intro k b h
    refine Rec.get_foldl_set_false fields [] k b ?_ h
    intro k2 b2 h2
    simp [Rec.get] at h2

/-- C9 witness: resetting a dirtied two-field form restores the declared
default for one field and the empty string for the defaultless one, with empty
errors and no touched field. -/
theorem c9_witness :
    resetForm c9Fields ⟨[("a", JSVal.num 5)], [("a", "bad")], [("a", true)], true, false⟩
      = initFormState c9Fields ∧
    Rec.get (resetForm c9Fields
      ⟨[("a", JSVal.num 5)], [("a", "bad")], [("a", true)], true, false⟩).values "a"
      = some (JSVal.str "x") ∧
    Rec.get (resetForm c9Fields
      ⟨[("a", JSVal.num 5)], [("a", "bad")], [("a", true)], true, false⟩).values "b"
      = some (JSVal.str "") := by
  have h := c9_reset_restores_defaults c9Fields
    ⟨[("a", JSVal.num 5)], [("a", "bad")], [("a", true)], true, false⟩ (by decide)
  refine ⟨h.1, ?_, ?_⟩
  · exact h.2.1 { name := "a", defaultValue := some (JSVal.str "x") }
      (List.mem_cons_self _ _)
  · exact h.2.1 { name := "b" } (List.mem_cons_of_mem _ (List.mem_cons_self _ _))

/-! ### Claim C10 -/

/-- C10: on form creation (and on reset, which rebuilds the same state) a
configured field with no defaultValue, or a null or undefined one, gets the
empty string as its initial value — not null or undefined — while every
configured field's touched flag is false, errors is empty, isValid is true and
isValidating is false. -/
theorem c10_initial_state (fields : List FieldConfig) (s : FormState)
    (hnodup : (fields.map FieldConfig.name).Nodup) :
    (∀ f ∈ fields,
      (f.defaultValue = none ∨ f.defaultValue = some JSVal.null ∨
        f.defaultValue = some JSVal.undefined) →
      Rec.get (initFormState fields).values f.name = some (JSVal.str "")) ∧
    (∀ f ∈ fields, Rec.get (initFormState fields).touched f.name = some false) ∧
    (initFormState fields).errors = [] ∧
    (initFormState fields).isValid = true ∧
    (initFormState fields).isValidating = false ∧
    resetForm fields s = initFormState fields := by
  refine ⟨?_, ?_, rfl, rfl, rfl, rfl⟩
  · intro f hf hdv
    have h2 : Rec.get (initFormState fields).values f.name
        = some (nullishOr f.defaultValue (JSVal.str "")) :=
      Rec.get_foldl_set_mem (fun f2 => nullishOr f2.defaultValue (JSVal.str ""))
        fields [] f hnodup hf
    rcases hdv with h1 | h1 | h1 <;> rw [h1] at h2 <;> exact h2
  · intro f hf
    exact Rec.get_foldl_set_mem (fun _ => false) fields [] f hnodup hf

/-- C10 witness: with an absent, a null and an undefined default the initial
value is the empty string, an ordinary default is kept, touched flags are
false, errors empty. -/
theorem c10_witness :
    Rec.get (initFormState c10Fields).values "a" = some (JSVal.str "") ∧
    Rec.get (initFormState c10Fields).values "b" = some (JSVal.str "") ∧
    Rec.get (initFormState c10Fields).values "c" = some (JSVal.str "") ∧
    Rec.get (initFormState c10Fields).touched "d" = some false ∧
    (initFormState c10Fields).errors = [] := by
  have h := c10_initial_state c10Fields (initFormState c10Fields) (by decide)
  refine ⟨?_, ?_, ?_, ?_, h.2.2.1⟩
  · exact h.1 { name := "a" } (List.mem_cons_self _ _) (Or.inl rfl)
  · exact h.1 { name := "b", defaultValue := some JSVal.null }
      (List.mem_cons_of_mem _ (List.mem_cons_self _ _)) (Or.inr (Or.inl rfl))
  · exact h.1 { name := "c", defaultValue := some JSVal.undefined }
      (List.mem_cons_of_mem _ (List.mem_cons_of_mem _ (List.mem_cons_self _ _)))
      (Or.inr (Or.inr rfl))
  · exact h.2.1 { name := "d", defaultValue := some (JSVal.num 7) }
      (List.mem_cons_of_mem _ (List.mem_cons_of_mem _ (List.mem_cons_of_mem _
        (List.mem_cons_self _ _))))

end FormGuard
